import Mathlib

/-!
Verification development for the sonardsp repository (sonardsp/propagation.py
and sonardsp/waveform.py), as a shallow embedding over exact arithmetic.

Conventions of the embedding:
* Python floats are embedded as rationals (ℚ); floating-point rounding is out
  of scope, every formula is read as exact real arithmetic.
* The transcendental helpers the code calls (math.exp, math.sqrt, 10 ** x,
  np.log10) are opaque parameters gathered in `RealOps`: every theorem below
  holds for an arbitrary interpretation of them, exactly as the control flow
  of the source is independent of their values.
* Complex samples (numpy complex128) are embedded as pairs of rationals (`CQ`).
* numpy arrays with an arbitrary number of leading batch dimensions are
  embedded as `NDSig`: the list of leading extents plus the last-axis length
  plus an indexing function.  All sizes are assumed positive; the degenerate
  empty-array special cases of the numeric libraries are outside the model.
* Python warnings are embedded as Bool flags returned next to each value
  (warnings are used by the source purely as validity signals).
* Python exceptions that escape the source's warning capture are embedded as
  `Option`: the two frequency-banded absorption evaluators reach
  `math.sqrt(S / 35)` (ValueError for a negative argument) and divisions
  whose denominator the caller controls (ZeroDivisionError), so they check
  each such argument and return `none` exactly where the program raises, and
  `absorption` propagates the failure.
-/

/-- Complex number with rational components, embedding numpy complex128
samples exactly. -/
structure CQ where
  re : ℚ
  im : ℚ
deriving DecidableEq, Repr

instance : Zero CQ := ⟨⟨0, 0⟩⟩

instance : Add CQ := ⟨fun a b => ⟨a.re + b.re, a.im + b.im⟩⟩

instance : Mul CQ := ⟨fun a b => ⟨a.re * b.re - a.im * b.im, a.re * b.im + a.im * b.re⟩⟩

/-- Complex conjugate of a `CQ`, embedding np.conjugate on one sample. -/
def CQ.conj (a : CQ) : CQ := ⟨a.re, -a.im⟩

instance : AddCommMonoid CQ where
  add_assoc a b c := by
    rcases a with ⟨ar, ai⟩; rcases b with ⟨br, bi⟩; rcases c with ⟨cr, ci⟩
    exact congrArg₂ CQ.mk (show ar + br + cr = ar + (br + cr) by ring)
      (show ai + bi + ci = ai + (bi + ci) by ring)
  zero_add a := by
    rcases a with ⟨ar, ai⟩
    exact congrArg₂ CQ.mk (show 0 + ar = ar by ring) (show 0 + ai = ai by ring)
  add_zero a := by
    rcases a with ⟨ar, ai⟩
    exact congrArg₂ CQ.mk (show ar + 0 = ar by ring) (show ai + 0 = ai by ring)
  add_comm a b := by
    rcases a with ⟨ar, ai⟩; rcases b with ⟨br, bi⟩
    exact congrArg₂ CQ.mk (show ar + br = br + ar by ring)
      (show ai + bi = bi + ai by ring)
  nsmul := nsmulRec

/-- Zero-padded list access: `lget l k` is `l[k]` for `k < l.length` and `0`
past the end, the convention under which convolution sums are written. -/
def lget : List CQ → ℕ → CQ
  | [], _ => 0
  | x :: _, 0 => x
  | _ :: xs, k + 1 => lget xs k

/-- Time-flipped complex conjugate of the reference waveform: embeds
`np.flip(np.conjugate(ref_wfm))` from waveform.py. -/
def flipConj (r : List CQ) : List CQ := (r.map CQ.conj).reverse

/-- Entry `k` of the full linear convolution of `f` (of length `lf`) with `g`
(of length `lg`), both read as zero outside their extent:
`sum over j ≤ k of f j * g (k - j)`. -/
def fullConvAt (f : ℕ → CQ) (lf : ℕ) (g : ℕ → CQ) (lg : ℕ) (k : ℕ) : CQ :=
  Finset.sum (Finset.range (k + 1))
    (fun j => (if j < lf then f j else 0) * (if k - j < lg then g (k - j) else 0))

/-- An N-dimensional numpy array whose last axis carries the samples:
`bshape` are the leading (batch) extents taken in order, `n` the last-axis
length, and `dat idx k` the sample at batch index tuple `idx` and fast-time
index `k`.  All constructions below write `0` outside the last-axis extent. -/
structure NDSig where
  bshape : List ℕ
  n : ℕ
  dat : List ℕ → ℕ → CQ

/-- Bounds-guarded sample read of a signal along its last axis. -/
def sigAt (sig : NDSig) (idx : List ℕ) (k : ℕ) : CQ :=
  if k < sig.n then sig.dat idx k else 0

/-- Embedding of `_pc_numpy_convolve` (waveform.py lines 51-92): for every
leading index tuple, the mode-valid convolution of that 1-D slice with the
time-flipped conjugated reference.  np.convolve in valid mode returns the
entries of the full convolution where the two inputs overlap completely,
i.e. full-convolution indices `min - 1 .. max - 1`, of length
`max(A,B) - min(A,B) + 1` with `A = ref length` and `B = last-axis length`. -/
def pc_numpy_convolve (sig : NDSig) (ref : List CQ) : NDSig :=
  let A := ref.length
  let B := sig.n
  let pcn := max A B - min A B + 1
  let kf := flipConj ref
  ⟨sig.bshape, pcn,
   fun idx m =>
     if m < pcn then
       fullConvAt (sig.dat idx) B (lget kf) kf.length (m + (min A B - 1))
     else 0⟩

/-- Embedding of the result of `_pc_scipy_fftconvolve` (waveform.py lines
188-234): the kernel `flipConj ref` is reshaped to `(1, ..., 1, K)` and
`scipy.signal.fftconvolve(sig, kernel, mode=valid, axes=last)` is applied.
Over exact arithmetic the FFT method computes the exact convolution, so the
embedding keeps fftconvolve's documented result: the conv axis is dropped
from `axes` when either operand has extent 1 there (the product then merely
broadcasts and mode valid slices nothing); otherwise, when the signal's last
axis is shorter than the kernel the operands are swapped along the conv axis,
the full convolution is taken along that axis (the length-1 leading kernel
extents broadcast against the batch extents), and the valid slice of length
`s1 - s2 + 1` starting at `(full - valid) / 2` is kept. -/
def fftResult (sig : NDSig) (ref : List CQ) : NDSig :=
  let K := ref.length
  let B := sig.n
  let kf := flipConj ref
  if K = 1 ∨ B = 1 then
    ⟨sig.bshape, max B K,
     fun idx m =>
       if m < max B K then
         (if B = 1 then sigAt sig idx 0 else sigAt sig idx m) *
           (if K = 1 then lget kf 0 else lget kf m)
       else 0⟩
  else
    if B < K then
      ⟨sig.bshape, K - B + 1,
       fun idx m =>
         if m < K - B + 1 then
           fullConvAt (lget kf) kf.length (sig.dat idx) B
             (m + ((B + K - 1 - (K - B + 1)) / 2))
         else 0⟩
    else
      ⟨sig.bshape, B - K + 1,
       fun idx m =>
         if m < B - K + 1 then
           fullConvAt (sig.dat idx) B (lget kf) kf.length
             (m + ((B + K - 1 - (B - K + 1)) / 2))
         else 0⟩

/-- Embedding of scipy's shape acceptance for this call: fftconvolve first
drops from `axes` every axis where either operand has extent 1, then its
valid-mode check demands, along the remaining conv axes only, that one
operand be at least as large as the other (`_inputs_swap_needed`).  With the
single conv axis this is `B ≥ K ∨ K ≥ B`; the leading axes broadcast against
the kernel's extent-1 axes and are never compared. -/
def fftShapeOk (sig : NDSig) (ref : List CQ) : Bool :=
  if ref.length = 1 ∨ sig.n = 1 then true
  else decide (sig.n ≥ ref.length ∨ ref.length ≥ sig.n)

/-- Embedding of `_pc_scipy_fftconvolve` with its (scipy-side) error channel:
`none` would be a raised ValueError, `some` a returned array. -/
def pc_scipy_fftconvolve (sig : NDSig) (ref : List CQ) : Option NDSig :=
  if fftShapeOk sig ref then some (fftResult sig ref) else none

/-- Embedding of `compress_pulses` (waveform.py lines 237-273): it simply
delegates to the fftconvolve pipeline. -/
def compress_pulses (sig : NDSig) (ref : List CQ) : Option NDSig :=
  pc_scipy_fftconvolve sig ref

/-- Embedding of `gen_lfm_chirp` (waveform.py lines 14-46) over ℚ, returning
the time axis and the phase sequence theta (the waveform is the complex
exponential of `2 * pi * theta`, see `chirpOf`).  `n = floor(pw * fs)`;
when `n = 0` the realized pulse width `n / fs` is `0.0` and Python's scalar
division `(fstop - fstart) / pw` raises ZeroDivisionError, embedded as
`none`.  For negative `n`, `np.arange n` is empty and empty arrays are
returned. -/
def gen_lfm_chirp (fs pw fstart fstop : ℚ) : Option (List ℚ × List ℚ) :=
  let n : ℤ := Int.floor (pw * fs)
  if n = 0 then none
  else
    let pw2 : ℚ := (n : ℚ) / fs
    let t : List ℚ := (List.range n.toNat).map (fun i : ℕ => (i : ℚ) / fs)
    let alpha : ℚ := (fstop - fstart) / pw2
    let theta : List ℚ := t.map (fun x => fstart * x + 1 / 2 * alpha * x ^ 2)
    some (t, theta)

/-- Complex chirp sample with phase `q` (in cycles): `exp(i * 2 * pi * q)`,
the embedding of `np.exp(1j * 2 * np.pi * theta)` at one sample. -/
noncomputable def chirpOf (q : ℚ) : ℂ :=
  Complex.exp (((2 * Real.pi * (q : ℝ) : ℝ) : ℂ) * Complex.I)

/-- Opaque interpretations of the transcendental helpers used by
propagation.py: `exp` for math.exp, `sqrt` for math.sqrt, `pow10` for
`10 ** x` with a non-integer exponent, `log10` for np.log10.  Every theorem
quantifies over them, since no branch of the source depends on their
values. -/
structure RealOps where
  exp : ℚ → ℚ
  sqrt : ℚ → ℚ
  pow10 : ℚ → ℚ
  log10 : ℚ → ℚ

/-- Arithmetic mean of a list, embedding np.mean of a 1-D array. -/
def meanQ (l : List ℚ) : ℚ := l.sum / (l.length : ℚ)

/-- Embedding of `c_mackenzie` (propagation.py lines 19-49): the Mackenzie
1981 sound-speed polynomial with the depth clamped to at least 0 first,
paired with the warning flag (true when the reliability limits are
violated: T < 2, T > 30, S < 25, S > 40 or z > 8000 after the clamp). -/
def c_mackenzie (T z S : ℚ) : ℚ × Bool :=
  let z1 := if z < 0 then 0 else z
  let w := decide (T < 2 ∨ T > 30 ∨ S < 25 ∨ S > 40 ∨ z1 > 8000)
  (1448.96 + 4.591 * T - 5.304e-2 * T ^ 2 + 2.374e-4 * T ^ 3 + 1.340 * (S - 35)
     + 1.630e-2 * z1 + 1.675e-7 * z1 ^ 2 - 1.025e-2 * T * (S - 35)
     - 7.139e-13 * T * z1 ^ 3, w)

/-- Embedding of `c_coppens` (propagation.py lines 52-87): the Coppens 1981
sound-speed formula (depth rescaled to kilometres internally), with the
depth clamped to at least 0 first, paired with its warning flag. -/
def c_coppens (T z S : ℚ) : ℚ × Bool :=
  let z1 := if z < 0 then 0 else z
  let w := decide (T < 0 ∨ T > 35 ∨ S < 0 ∨ S > 45 ∨ z1 > 4000)
  let zk := z1 / 1000
  let t := T / 10
  let c_surface := 1449.05 + 45.7 * t - 5.21 * t ^ 2 + 0.23 * t ^ 3
      + (1.333 - 0.126 * t + 0.009 * t ^ 2) * (S - 35)
  (c_surface + (16.23 + 0.253 * t) * zk + (0.213 - 0.1 * t) * zk ^ 2
     + (0.016 + 0.0002 * (S - 35)) * (S - 35) * t * zk, w)

/-- Embedding of `speed_of_sound`'s accumulation of valid and invalid model
results (propagation.py lines 110-129): Mackenzie first, then Coppens, each
appended to the valid list when its warning flag is unset and to the invalid
list otherwise. -/
def sosParts (T z S : ℚ) : List ℚ × List ℚ :=
  let m := c_mackenzie T z S
  let p1 : List ℚ × List ℚ := if m.2 then ([], [m.1]) else ([m.1], [])
  let c := c_coppens T z S
  if c.2 then (p1.1, p1.2 ++ [c.1]) else (p1.1 ++ [c.1], p1.2)

/-- Embedding of `speed_of_sound` (propagation.py lines 90-141): the mean of
the valid model results when any exist, otherwise the mean of the invalid
ones together with the raised global-invalidity warning (second component). -/
def speed_of_sound (T z S : ℚ) : ℚ × Bool :=
  let p := sosParts T z S
  if p.1 = [] then (meanQ p.2, true) else (meanQ p.1, false)

/-- Embedding of `alpha_fisher_and_simmons` (propagation.py lines 146-197):
the Fisher and Simmons 1977 absorption formula, depth clamped to at least 0
first.  The function itself never warns (second component is always false);
its validity is decided by the caller `absorption`. -/
def alpha_fisher_and_simmons (ops : RealOps) (freq T z : ℚ) : ℚ × Bool :=
  let z1 := if z < 0 then 0 else z
  let T_kel := T + 273.15
  let p := z1 / 10
  let b_a := 1.03e-8 + 2.36e-10 * T - 5.22e-12 * T ^ 2
  let b_f := 1.32e3 * T_kel * ops.exp (-1700 / T_kel)
  let boric := (b_a * 1 * b_f * freq ^ 2) / (freq ^ 2 + b_f ^ 2)
  let m_a := 5.62e-8 + 7.52e-10 * T
  let m_pc := 1 - 10.3e-4 * p + 3.7e-7 * p ^ 2
  let m_f := 1.55e7 * T_kel * ops.exp (-3052 / T_kel)
  let mgso4 := (m_a * m_pc * m_f * freq ^ 2) / (freq ^ 2 + m_f ^ 2)
  let h_a := (55.9 - 2.37 * T + 4.77e-2 * T ^ 2 - 3.48e-4 * T ^ 3) * 1e-15
  let h_pc := 1 - 3.84e-4 * p + 7.57e-8 * p ^ 2
  let h2o := h_a * h_pc * freq ^ 2
  ((boric + mgso4 + h2o) * 8686, false)

/-- Embedding of `alpha_francois_and_garrison` (propagation.py lines
200-275): the Francois and Garrison 1982 absorption formula, depth clamped
to at least 0 first, with its frequency-banded warning flag.  Partial
operations whose failure nothing catches are embedded as `none`: `8.86 / c`
and `S / c` raise ZeroDivisionError when the internal sound speed `c` is 0,
`math.sqrt(S / 35)` raises ValueError when its argument is negative,
`1245 / T_kel` and `1990 / T_kel` raise when `T = -273.15`, and each
quotient raises when its denominator is 0. -/
def alpha_francois_and_garrison (ops : RealOps) (freq T z S ph : ℚ) :
    Option (ℚ × Bool) :=
  let z1 := if z < 0 then 0 else z
  let w := if freq < 10000 then true
    else if freq ≤ 500000 then decide (T < -2 ∨ T > 22 ∨ S < 30 ∨ S > 35 ∨ z1 > 3500)
    else decide (T < 0 ∨ T > 30 ∨ S < 0 ∨ S > 40 ∨ z1 > 10000)
  let fk := freq / 1000
  let T_kel := T + 273.15
  let c := 1412 + 3.21 * T + 1.19 * S + 0.0167 * z1
  if c = 0 ∨ S / 35 < 0 ∨ T_kel = 0 then none
  else
    let b_a := (8.86 / c) * ops.pow10 (0.78 * ph - 5)
    let b_f := 2.8 * ops.sqrt (S / 35) * ops.pow10 (4 - 1245 / T_kel)
    if fk ^ 2 + b_f ^ 2 = 0 then none
    else
      let boric := (b_a * 1 * b_f * fk ^ 2) / (fk ^ 2 + b_f ^ 2)
      let m_a := 21.44 * (S / c) * (1 + 0.025 * T)
      let m_pc := 1 - 1.37e-4 * z1 + 6.2e-9 * z1 ^ 2
      if 1 + 0.0018 * (S - 35) = 0 then none
      else
        let m_f := (8.17 * ops.pow10 (8 - 1990 / T_kel)) / (1 + 0.0018 * (S - 35))
        if fk ^ 2 + m_f ^ 2 = 0 then none
        else
          let mgso4 := (m_a * m_pc * m_f * fk ^ 2) / (fk ^ 2 + m_f ^ 2)
          let h_a := if T ≤ 20 then
              4.937e-4 - 2.59e-5 * T + 9.11e-7 * T ^ 2 - 1.5e-8 * T ^ 3
            else 3.964e-4 - 1.146e-5 * T + 1.45e-7 * T ^ 2 - 6.5e-10 * T ^ 3
          let h_pc := 1 - 3.83e-5 * z1 + 4.9e-10 * z1 ^ 2
          let h2o := h_a * h_pc * fk ^ 2
          some (boric + mgso4 + h2o, w)

/-- Embedding of `alpha_ainslie_and_mccolm` (propagation.py lines 278-347):
the Ainslie and McColm 1998 absorption formula, depth clamped to at least 0
first, with its frequency-banded warning flag.  Partial operations whose
failure nothing catches are embedded as `none`: `math.sqrt(S / 35)` raises
ValueError when its argument is negative, and each relaxation quotient
raises ZeroDivisionError when its denominator is 0. -/
def alpha_ainslie_and_mccolm (ops : RealOps) (freq T z S ph : ℚ) :
    Option (ℚ × Bool) :=
  let z1 := if z < 0 then 0 else z
  let w := if freq < 100 then true
    else if freq ≤ 1000000 then
      decide (T < -6 ∨ T > 35 ∨ S < 5 ∨ S > 50 ∨ ph < 7.7 ∨ ph > 8.3 ∨ z1 > 7000)
    else true
  let fk := freq / 1000
  let zk := z1 / 1000
  if S / 35 < 0 then none
  else
    let b_a := 0.106 * ops.exp ((ph - 8) / 0.56)
    let b_f := 0.78 * ops.sqrt (S / 35) * ops.exp (T / 26)
    if fk ^ 2 + b_f ^ 2 = 0 then none
    else
      let boric := (b_a * 1 * b_f * fk ^ 2) / (fk ^ 2 + b_f ^ 2)
      let m_a := 0.52 * (S / 35) * (1 + T / 43)
      let m_pc := ops.exp (-zk / 6)
      let m_f := 42 * ops.exp (T / 17)
      if fk ^ 2 + m_f ^ 2 = 0 then none
      else
        let mgso4 := (m_a * m_pc * m_f * fk ^ 2) / (fk ^ 2 + m_f ^ 2)
        let h2o := 0.00049 * ops.exp (-(T / 27 + zk / 17)) * fk ^ 2
        some (boric + mgso4 + h2o, w)

/-- Embedding of `absorption`'s accumulation of valid and invalid model
results (propagation.py lines 375-401): Fisher and Simmons is computed for
every input and is classified valid exactly when `S = 35 ∧ ph = 8` (an
equality test, line 380); Francois and Garrison and Ainslie and McColm are
classified by their own warning flags.  `warnings.catch_warnings` does not
catch exceptions, so a failing evaluator (`none`) aborts the accumulation. -/
def absorptionParts (ops : RealOps) (freq T z S ph : ℚ) :
    Option (List ℚ × List ℚ) :=
  let fs := alpha_fisher_and_simmons ops freq T z
  let p1 : List ℚ × List ℚ := if S = 35 ∧ ph = 8 then ([fs.1], []) else ([], [fs.1])
  match alpha_francois_and_garrison ops freq T z S ph with
  | none => none
  | some fg =>
    let p2 := if fg.2 then (p1.1, p1.2 ++ [fg.1]) else (p1.1 ++ [fg.1], p1.2)
    match alpha_ainslie_and_mccolm ops freq T z S ph with
    | none => none
    | some am =>
      some (if am.2 then (p2.1, p2.2 ++ [am.1]) else (p2.1 ++ [am.1], p2.2))

/-- Embedding of `absorption` (propagation.py lines 350-413): the mean of the
valid model results when any exist, otherwise the mean of the invalid ones
together with the raised global-invalidity warning (second component).  A
failing evaluator's exception propagates to the caller (`none`). -/
def absorption (ops : RealOps) (freq T z S ph : ℚ) : Option (ℚ × Bool) :=
  match absorptionParts ops freq T z S ph with
  | none => none
  | some p => some (if p.1 = [] then (meanQ p.2, true) else (meanQ p.1, false))

/-- The aggregation policy as the spec states it: given the model results
paired with their invalidity flags, partition by the flag; the ensemble
value is the mean of the valid subset when non-empty, otherwise the mean of
the invalid subset with the global-invalidity flag raised. -/
def ensembleSpec (results : List (ℚ × Bool)) : ℚ × Bool :=
  let valid := (results.filter (fun r => !r.2)).map Prod.fst
  let invalid := (results.filter (fun r => r.2)).map Prod.fst
  if valid = [] then (meanQ invalid, true) else (meanQ valid, false)

/-- A distance argument as a caller passes it to the loss functions: a Python
scalar, a Python list, or a numpy array.  The distinction matters because
`spreading_loss` clamps a numpy array argument in place (propagation.py line
493) while a list is first copied (line 486) and a scalar is rebound. -/
inductive DArg where
  | scl (q : ℚ)
  | lst (l : List ℚ)
  | arr (l : List ℚ)
deriving DecidableEq, Repr

/-- A numeric result of the loss functions: a scalar or a numpy array. -/
inductive NumV where
  | scl (q : ℚ)
  | arr (l : List ℚ)
deriving DecidableEq, Repr

/-- Elementwise map over a scalar-or-array value (numpy broadcasting of a
unary operation). -/
def vmap (f : ℚ → ℚ) : NumV → NumV
  | NumV.scl q => NumV.scl (f q)
  | NumV.arr l => NumV.arr (l.map f)

/-- Elementwise combination of two scalar-or-array values (numpy
broadcasting of a binary operation). -/
def vzip (f : ℚ → ℚ → ℚ) : NumV → NumV → NumV
  | NumV.scl a, NumV.scl b => NumV.scl (f a b)
  | NumV.arr a, NumV.arr b => NumV.arr (List.zipWith f a b)
  | NumV.scl a, NumV.arr b => NumV.arr (b.map (fun x => f a x))
  | NumV.arr a, NumV.scl b => NumV.arr (a.map (fun x => f x b))

/-- Numeric view of a distance argument after `if type(d) is list:
d = np.array(d)`: a list becomes an array, the others keep their kind. -/
def toV : DArg → NumV
  | DArg.scl q => NumV.scl q
  | DArg.lst l => NumV.arr l
  | DArg.arr l => NumV.arr l

/-- The four parallel loss views returned by every loss function, in the
source's order. -/
structure Loss4 where
  lin_one_way : NumV
  lin_two_way : NumV
  db_one_way : NumV
  db_two_way : NumV
deriving DecidableEq, Repr

/-- Sub-1-metre clamp used by `spreading_loss`: values below 1 are raised to
1, the rest are untouched. -/
def clampDist (x : ℚ) : ℚ := if x < 1 then 1 else x

/-- Embedding of `absorption_loss` (propagation.py lines 418-456): the
coefficient is rescaled to dB/m, one-way dB is coefficient times distance,
two-way dB doubles it, and the linear views are `10 ^ (dB / 10)`.  The
caller's argument is never modified. -/
def absorption_loss (ops : RealOps) (d : DArg) (alpha : ℚ) : Loss4 :=
  let a := alpha / 1000
  let db1 := vmap (fun x => a * x) (toV d)
  let db2 := vmap (fun x => x * 2) db1
  ⟨vmap (fun x => ops.pow10 (x / 10)) db1, vmap (fun x => ops.pow10 (x / 10)) db2,
   db1, db2⟩

/-- Embedding of `spreading_loss` (propagation.py lines 459-507) together
with its frame effect.  The first component is the caller's argument after
the call: a numpy array is clamped in place by `d[np.where(d < 1)] = 1`, a
list was copied into a fresh array first so it is unchanged, and a scalar is
only rebound locally.  The second component is the returned four-tuple,
computed from the clamped distances with one-way dB equal to
`20 * log10 d`. -/
def spreading_loss (ops : RealOps) (d : DArg) : DArg × Loss4 :=
  let dAfter : DArg :=
    match d with
    | DArg.arr l => DArg.arr (l.map clampDist)
    | x => x
  let dv : NumV :=
    match d with
    | DArg.scl q => NumV.scl (clampDist q)
    | DArg.lst l => NumV.arr (l.map clampDist)
    | DArg.arr l => NumV.arr (l.map clampDist)
  let db1 := vmap (fun x => 20 * ops.log10 x) dv
  let db2 := vmap (fun x => x * 2) db1
  (dAfter,
   ⟨vmap (fun x => ops.pow10 (x / 10)) db1, vmap (fun x => ops.pow10 (x / 10)) db2,
    db1, db2⟩)

/-- Embedding of `transmission_loss` (propagation.py lines 510-545) together
with its frame effect: `absorption_loss` runs first on the unmodified
argument, then `spreading_loss` runs (clamping a numpy array argument in
place), the one-way dB components are added, and the remaining views are
derived from the sum. -/
def transmission_loss (ops : RealOps) (d : DArg) (alpha : ℚ) : DArg × Loss4 :=
  let al := absorption_loss ops d alpha
  let sl := spreading_loss ops d
  let db1 := vzip (fun a b => a + b) al.db_one_way sl.2.db_one_way
  let db2 := vmap (fun x => x * 2) db1
  (sl.1,
   ⟨vmap (fun x => ops.pow10 (x / 10)) db1, vmap (fun x => ops.pow10 (x / 10)) db2,
    db1, db2⟩)

/-- Concrete interpretation of the transcendental helpers used only to
instantiate witnesses (any interpretation does; the identity is the
simplest). -/
def opsId : RealOps := ⟨fun q => q, fun q => q, fun q => q, fun q => q⟩

/-- Concrete two-pulse signal fixture: batch shape [2], three samples per
pulse. -/
def sigW : NDSig := ⟨[2], 3, fun idx k => ⟨(k : ℚ) + 2 * (idx.headD 0 : ℚ), 0⟩⟩

/-- Concrete two-sample reference waveform fixture. -/
def refW : List CQ := [⟨1, 0⟩, ⟨0, 1⟩]

/-- Concrete five-sample reference waveform fixture, longer than `sigW`'s
last axis. -/
def refW5 : List CQ := [⟨1, 0⟩, ⟨2, 0⟩, ⟨0, 1⟩, ⟨0, 0⟩, ⟨3, 0⟩]

/-- Unfolding lemma for addition of rational complex numbers. -/
theorem CQ.add_def (a b : CQ) : a + b = ⟨a.re + b.re, a.im + b.im⟩ := rfl

/-- Unfolding lemma for multiplication of rational complex numbers. -/
theorem CQ.mul_def (a b : CQ) :
    a * b = ⟨a.re * b.re - a.im * b.im, a.re * b.im + a.im * b.re⟩ := rfl

/-- Unfolding lemma for the zero rational complex number. -/
theorem CQ.zero_def : (0 : CQ) = ⟨0, 0⟩ := rfl

/-- Multiplication of rational complex numbers is commutative. -/
theorem CQ.mul_comm (a b : CQ) : a * b = b * a := by
  rcases a with ⟨ar, ai⟩; rcases b with ⟨br, bi⟩
  exact congrArg₂ CQ.mk (show ar * br - ai * bi = br * ar - bi * ai by ring)
    (show ar * bi + ai * br = br * ai + bi * ar by ring)

/-- Multiplying a rational complex number by zero gives zero. -/
theorem CQ.mul_zero (a : CQ) : a * 0 = 0 := by
  rcases a with ⟨ar, ai⟩
  exact congrArg₂ CQ.mk (show ar * 0 - ai * 0 = 0 by ring)
    (show ar * 0 + ai * 0 = 0 by ring)

/-- Multiplying zero by a rational complex number gives zero. -/
theorem CQ.zero_mul (a : CQ) : 0 * a = 0 := by
  rcases a with ⟨ar, ai⟩
  exact congrArg₂ CQ.mk (show 0 * ar - 0 * ai = 0 by ring)
    (show 0 * ai + 0 * ar = 0 by ring)

/-- Reading past the end of a list gives the zero-padding value. -/
theorem lget_of_length_le (l : List CQ) (k : ℕ) (h : l.length ≤ k) : lget l k = 0 := by
  induction l generalizing k with
  | nil => cases k <;> rfl
  | cons x xs ih =>
    cases k with
    | zero => simp at h
    | succ k => exact ih k (by simpa using h)

/-- Flipping and conjugating keeps the length of the reference waveform. -/
theorem flipConj_length (r : List CQ) : (flipConj r).length = r.length := by
  simp [flipConj]

/-- Full convolution is commutative in its two (function, extent) operands. -/
theorem fullConvAt_comm (f : ℕ → CQ) (lf : ℕ) (g : ℕ → CQ) (lg : ℕ) (k : ℕ) :
    fullConvAt f lf g lg k = fullConvAt g lg f lf k := by
  unfold fullConvAt
  rw [← Finset.sum_range_reflect
    (fun j => (if j < lg then g j else 0) * (if k - j < lf then f (k - j) else 0))
    (k + 1)]
  apply Finset.sum_congr rfl
  intro j hj
  have hjk : j ≤ k := Nat.lt_succ_iff.mp (Finset.mem_range.mp hj)
  have h1 : k + 1 - 1 - j = k - j := by omega
  have h2 : k - (k - j) = j := by omega
  rw [h1, h2, CQ.mul_comm]

/-- Full convolution against a length-1 second operand collapses to a single
product. -/
theorem fullConvAt_lg_one (f : ℕ → CQ) (lf : ℕ) (g : ℕ → CQ) (m : ℕ)
    (hm : m < lf) : fullConvAt f lf g 1 m = f m * g 0 := by
  unfold fullConvAt
  rw [Finset.sum_eq_single m]
  · rw [if_pos hm, Nat.sub_self, if_pos Nat.one_pos]
  · intro b hb hbm
    have hblt : b < m := by
      have := Finset.mem_range.mp hb
      omega
    rw [if_neg (show ¬ (m - b < 1) by omega), CQ.mul_zero]
  · intro hm2
    exact absurd (Finset.mem_range.mpr (by omega)) hm2

/-- Full convolution with a length-1 first operand collapses to a single
product. -/
theorem fullConvAt_lf_one (f : ℕ → CQ) (g : ℕ → CQ) (lg : ℕ) (m : ℕ)
    (hm : m < lg) : fullConvAt f 1 g lg m = f 0 * g m := by
  unfold fullConvAt
  rw [Finset.sum_eq_single 0]
  · rw [if_pos Nat.one_pos, Nat.sub_zero, if_pos hm]
  · intro b hb hb0
    rw [if_neg (show ¬ (b < 1) by omega), CQ.zero_mul]
  · intro h0
    exact absurd (Finset.mem_range.mpr (by omega)) h0

/-- Two signals with the same shape and the same samples are equal. -/
theorem NDSig.ext_of (a b : NDSig) (h1 : a.bshape = b.bshape) (h2 : a.n = b.n)
    (h3 : ∀ idx k, a.dat idx k = b.dat idx k) : a = b := by
  rcases a with ⟨ab, an, ad⟩
  rcases b with ⟨bb, bn, bd⟩
  have hd : ad = bd := funext fun idx => funext fun k => h3 idx k
  cases h1; cases h2; cases hd; rfl

/-- The scipy shape check of this call site always passes: along the single
conv axis one operand is always at least as large as the other. -/
theorem fftShapeOk_true (sig : NDSig) (ref : List CQ) :
    fftShapeOk sig ref = true := by
  unfold fftShapeOk
  by_cases h : ref.length = 1 ∨ sig.n = 1
  · rw [if_pos h]
  · rw [if_neg h]
    simp only [ge_iff_le, decide_eq_true_eq]
    omega

/-- compress_pulses never takes scipy's error path: its result is always the
returned array `fftResult`. -/
theorem compress_pulses_eq_some (sig : NDSig) (ref : List CQ) :
    compress_pulses sig ref = some (fftResult sig ref) := by
  unfold compress_pulses pc_scipy_fftconvolve
  simp [fftShapeOk_true]

/-- The batched fftconvolve pipeline computes exactly the per-slice naive
valid-mode convolution: the broadcast branch, the swapped branch and the
direct branch all agree with the looped np.convolve reference. -/
theorem fftResult_eq_numpy (sig : NDSig) (ref : List CQ)
    (hK : 1 ≤ ref.length) (hB : 1 ≤ sig.n) :
    fftResult sig ref = pc_numpy_convolve sig ref := by
  have hkf : (flipConj ref).length = ref.length := flipConj_length ref
  by_cases hK1 : ref.length = 1
  · have h1 : ref.length = 1 ∨ sig.n = 1 := Or.inl hK1
    simp only [fftResult, pc_numpy_convolve, if_pos h1]
    refine NDSig.ext_of _ _ rfl ?_ ?_
    · dsimp only
      omega
    · intro idx m
      dsimp only
      have hbound : max ref.length sig.n - min ref.length sig.n + 1
          = max sig.n ref.length := by omega
      have hoff : min ref.length sig.n - 1 = 0 := by omega
      rw [hbound, hoff, Nat.add_zero]
      by_cases hm : m < max sig.n ref.length
      · rw [if_pos hm, if_pos hm]
        have hmB : m < sig.n := by omega
        have hkf1 : (flipConj ref).length = 1 := by omega
        rw [hkf1, fullConvAt_lg_one _ _ _ _ hmB, if_pos hK1]
        by_cases hB1 : sig.n = 1
        · rw [if_pos hB1]
          have hm0 : m = 0 := by omega
          subst hm0
          simp only [sigAt]
          rw [if_pos (show (0 : ℕ) < sig.n by omega)]
        · rw [if_neg hB1]
          simp only [sigAt]
          rw [if_pos hmB]
      · rw [if_neg hm, if_neg hm]
  · by_cases hB1 : sig.n = 1
    · have h1 : ref.length = 1 ∨ sig.n = 1 := Or.inr hB1
      simp only [fftResult, pc_numpy_convolve, if_pos h1]
      refine NDSig.ext_of _ _ rfl ?_ ?_
      · dsimp only
        omega
      · intro idx m
        dsimp only
        have hbound : max ref.length sig.n - min ref.length sig.n + 1
            = max sig.n ref.length := by omega
        have hoff : min ref.length sig.n - 1 = 0 := by omega
        rw [hbound, hoff, Nat.add_zero]
        by_cases hm : m < max sig.n ref.length
        · rw [if_pos hm, if_pos hm]
          have hmK : m < (flipConj ref).length := by omega
          rw [if_pos hB1, if_neg hK1]
          rw [hB1, fullConvAt_lf_one _ _ _ _ hmK]
          simp only [sigAt]
          rw [if_pos (show (0 : ℕ) < sig.n by omega)]
        · rw [if_neg hm, if_neg hm]
    · have h1 : ¬ (ref.length = 1 ∨ sig.n = 1) := not_or.mpr ⟨hK1, hB1⟩
      simp only [fftResult, pc_numpy_convolve, if_neg h1]
      by_cases hswap : sig.n < ref.length
      · simp only [if_pos hswap]
        refine NDSig.ext_of _ _ rfl ?_ ?_
        · dsimp only
          omega
        · intro idx m
          dsimp only
          have hbound : max ref.length sig.n - min ref.length sig.n + 1
              = ref.length - sig.n + 1 := by omega
          have hoff2 : min ref.length sig.n - 1 = sig.n - 1 := by omega
          have hoff1 : (sig.n + ref.length - 1 - (ref.length - sig.n + 1)) / 2
              = sig.n - 1 := by omega
          rw [hbound, hoff1, hoff2]
          by_cases hm : m < ref.length - sig.n + 1
          · rw [if_pos hm, if_pos hm, fullConvAt_comm]
          · rw [if_neg hm, if_neg hm]
      · simp only [if_neg hswap]
        refine NDSig.ext_of _ _ rfl ?_ ?_
        · dsimp only
          omega
        · intro idx m
          dsimp only
          have hbound : max ref.length sig.n - min ref.length sig.n + 1
              = sig.n - ref.length + 1 := by omega
          have hoff2 : min ref.length sig.n - 1 = ref.length - 1 := by omega
          have hoff1 : (sig.n + ref.length - 1 - (sig.n - ref.length + 1)) / 2
              = ref.length - 1 := by omega
          rw [hbound, hoff1, hoff2]

/-- The returned array keeps the signal's leading shape in every branch. -/
theorem fftResult_bshape (sig : NDSig) (ref : List CQ) :
    (fftResult sig ref).bshape = sig.bshape := by
  unfold fftResult
  by_cases h1 : ref.length = 1 ∨ sig.n = 1
  · rw [if_pos h1]
  · rw [if_neg h1]
    by_cases h2 : sig.n < ref.length
    · rw [if_pos h2]
    · rw [if_neg h2]

/-- The returned array's last-axis length is the valid-convolution length in
every branch. -/
theorem fftResult_n (sig : NDSig) (ref : List CQ)
    (hK : 1 ≤ ref.length) (hB : 1 ≤ sig.n) :
    (fftResult sig ref).n = max ref.length sig.n - min ref.length sig.n + 1 := by
  unfold fftResult
  by_cases h1 : ref.length = 1 ∨ sig.n = 1
  · rw [if_pos h1]
    dsimp only
    omega
  · rw [if_neg h1]
    by_cases h2 : sig.n < ref.length
    · rw [if_pos h2]
      dsimp only
      omega
    · rw [if_neg h2]
      dsimp only
      omega

/-- C2: for every signal and non-empty 1-D reference for which
compress_pulses succeeds, its output equals (exactly, over the rational
complex embedding) the direct-summation loop implementation
pc_numpy_convolve on the same inputs: per leading-index tuple, the
valid-mode convolution of that slice with the time-reversed complex
conjugate of the reference. -/
theorem c2_compress_pulses_refines_numpy (sig : NDSig) (ref : List CQ)
    (hbatch : sig.bshape.all (fun b => decide (0 < b)) = true)
    (hK : 1 ≤ ref.length) (hB : 1 ≤ sig.n) :
    compress_pulses sig ref = some (pc_numpy_convolve sig ref) := by
  rw [compress_pulses_eq_some, fftResult_eq_numpy sig ref hK hB]

/-- Witness for C2 at a concrete batched signal and reference. -/
theorem c2_compress_pulses_refines_numpy_witness :
    compress_pulses sigW refW = some (pc_numpy_convolve sigW refW) :=
  c2_compress_pulses_refines_numpy sigW refW (by decide) (by decide) (by decide)

/-- C3: for every signal (any number of leading batch dimensions, including
none) and non-empty reference for which compress_pulses succeeds, the output
keeps exactly the signal's leading shape in order and its last-axis length is
`max(refLen, sigLen) - min(refLen, sigLen) + 1`. -/
theorem c3_compress_pulses_shape (sig : NDSig) (ref : List CQ)
    (hbatch : sig.bshape.all (fun b => decide (0 < b)) = true)
    (hK : 1 ≤ ref.length) (hB : 1 ≤ sig.n) :
    Option.map NDSig.bshape (compress_pulses sig ref) = some sig.bshape
    ∧ Option.map NDSig.n (compress_pulses sig ref)
        = some (max ref.length sig.n - min ref.length sig.n + 1) := by
  rw [compress_pulses_eq_some]
  constructor
  · simp [fftResult_bshape]
  · simp [fftResult_n sig ref hK hB]

/-- Witness for C3 at a concrete batched signal and reference. -/
theorem c3_compress_pulses_shape_witness :
    Option.map NDSig.bshape (compress_pulses sigW refW) = some sigW.bshape
    ∧ Option.map NDSig.n (compress_pulses sigW refW)
        = some (max refW.length sigW.n - min refW.length sigW.n + 1) :=
  c3_compress_pulses_shape sigW refW (by decide) (by decide) (by decide)

/-- C6 counterexample: on a batched signal of leading extent 2 whose last
axis (3 samples) is shorter than the reference (5 samples) — the claim's own
example of a shape that must fail — compress_pulses raises nothing: it
returns an array with leading shape [2], last-axis length 3 = 5 - 3 + 1, and
genuinely computed samples. -/
theorem c6_counterexample :
    compress_pulses sigW refW5 = some (fftResult sigW refW5)
    ∧ (fftResult sigW refW5).bshape = [2]
    ∧ (fftResult sigW refW5).n = 3
    ∧ (fftResult sigW refW5).dat [0] 0 = ⟨6, 0⟩ := by
  refine ⟨compress_pulses_eq_some sigW refW5, by decide, by decide, ?_⟩
  norm_num [fftResult, sigW, refW5, flipConj, lget, fullConvAt,
    Finset.sum_range_succ, Finset.sum_range_zero, CQ.mul_def, CQ.add_def,
    CQ.zero_def, CQ.conj, CQ.mk.injEq, List.headD]
  exact ⟨rfl, rfl⟩

/-- C6 (amended): compress_pulses performs no shape validation and raises no
error when the reference is longer than a batched signal's last axis: the
kernel's length-1 leading extents broadcast, the conv axis operands are
swapped, and the call returns an array with the signal's leading shape and
last-axis length `refLen - sigLen + 1`, truncating or padding nothing. -/
theorem c6_no_shape_error (sig : NDSig) (ref : List CQ)
    (hbatch : sig.bshape.all (fun b => decide (0 < b)) = true)
    (hK : 1 ≤ ref.length) (hB : 1 ≤ sig.n) (hlt : sig.n < ref.length) :
    compress_pulses sig ref = some (fftResult sig ref)
    ∧ (fftResult sig ref).bshape = sig.bshape
    ∧ (fftResult sig ref).n = ref.length - sig.n + 1 := by
  refine ⟨compress_pulses_eq_some sig ref, fftResult_bshape sig ref, ?_⟩
  rw [fftResult_n sig ref hK hB]
  omega

/-- Witness for the amended C6 at the counterexample's concrete input. -/
theorem c6_no_shape_error_witness :
    compress_pulses sigW refW5 = some (fftResult sigW refW5)
    ∧ (fftResult sigW refW5).bshape = sigW.bshape
    ∧ (fftResult sigW refW5).n = refW5.length - sigW.n + 1 :=
  c6_no_shape_error sigW refW5 (by decide) (by decide) (by decide) (by decide)

/-- Every chirp sample has magnitude exactly 1: the exponent is purely
imaginary. -/
theorem abs_chirpOf (q : ℚ) : Complex.abs (chirpOf q) = 1 := by
  unfold chirpOf
  exact Complex.abs_exp_ofReal_mul_I _

/-- Mapping the chirp magnitude over any phase list gives all ones. -/
theorem chirp_abs_map (l : List ℚ) :
    l.map (fun q => Complex.abs (chirpOf q)) = List.replicate l.length 1 := by
  induction l with
  | nil => rfl
  | cons x xs ih => simp [abs_chirpOf, ih, List.replicate_succ]

/-- C4 counterexample: at fs = 1 > 0 and pw = 1/2 the claim demands arrays
of length floor(1/2) = 0, but `floor(pw * fs) = 0` makes the realized pulse
width 0 and the slope computation divides by zero: gen_lfm_chirp raises
(returns no arrays at all). -/
theorem c4_counterexample : gen_lfm_chirp 1 (1 / 2) (-500) 500 = none := by
  norm_num [gen_lfm_chirp]

/-- C4 (amended): for every fs > 0 and pulse width with
`1 ≤ floor(pw * fs)` (the returned-arrays regime; at floor 0 the function
raises a division-by-zero error and at negative floor it returns empty
arrays), gen_lfm_chirp returns a time axis and a phase sequence of length
`n = floor(pw * fs)` with `t[i] = i / fs`, phases
`fstart * t + 1/2 * alpha * t^2` for `alpha = (fstop - fstart) / (n / fs)`
(so the waveform samples are the complex exponential of `2 pi` times these
phases), and every sample has magnitude exactly 1. -/
theorem c4_chirp_amended (fs pw fstart fstop : ℚ) (t theta : List ℚ)
    (hfs : 0 < fs) (hn : 1 ≤ Int.floor (pw * fs))
    (h : gen_lfm_chirp fs pw fstart fstop = some (t, theta)) :
    t.length = (Int.floor (pw * fs)).toNat
    ∧ theta.length = (Int.floor (pw * fs)).toNat
    ∧ t = (List.range (Int.floor (pw * fs)).toNat).map (fun i : ℕ => (i : ℚ) / fs)
    ∧ theta = t.map (fun x =>
        fstart * x
          + 1 / 2 * ((fstop - fstart) / ((Int.floor (pw * fs) : ℚ) / fs)) * x ^ 2)
    ∧ theta.map (fun q => Complex.abs (chirpOf q))
        = List.replicate (Int.floor (pw * fs)).toNat 1 := by
  have hne : ¬ (Int.floor (pw * fs) = 0) := by omega
  simp only [gen_lfm_chirp, if_neg hne, Option.some.injEq, Prod.mk.injEq] at h
  obtain ⟨ht, hth⟩ := h
  subst ht
  subst hth
  refine ⟨by simp only [List.length_map, List.length_range],
    by simp only [List.length_map, List.length_range], rfl, rfl, ?_⟩
  rw [chirp_abs_map]
  simp only [List.length_map, List.length_range]

/-- Witness for the amended C4 at fs = 2, pw = 1, a 0-to-1 Hz sweep: two
samples, time axis [0, 1/2], phases [0, 1/8], both magnitudes 1. -/
theorem c4_chirp_amended_witness :
    ([0, 1 / 2] : List ℚ).length = (Int.floor ((1 : ℚ) * 2)).toNat
    ∧ ([0, 1 / 8] : List ℚ).length = (Int.floor ((1 : ℚ) * 2)).toNat
    ∧ ([0, 1 / 2] : List ℚ)
        = (List.range (Int.floor ((1 : ℚ) * 2)).toNat).map (fun i : ℕ => (i : ℚ) / 2)
    ∧ ([0, 1 / 8] : List ℚ)
        = ([0, 1 / 2] : List ℚ).map (fun x =>
            0 * x + 1 / 2 * ((1 - 0) / ((Int.floor ((1 : ℚ) * 2) : ℚ) / 2)) * x ^ 2)
    ∧ ([0, 1 / 8] : List ℚ).map (fun q => Complex.abs (chirpOf q))
        = List.replicate (Int.floor ((1 : ℚ) * 2)).toNat 1 :=
  c4_chirp_amended 2 1 0 1 [0, 1 / 2] [0, 1 / 8] (by norm_num) (by norm_num)
    (by
      have h2 : Int.floor ((1 : ℚ) * 2) = 2 := by norm_num
      have hr : List.range ((2 : ℤ)).toNat = [0, 1] := rfl
      simp only [gen_lfm_chirp, h2, hr, List.map_cons, List.map_nil]
      norm_num)

/-- The sub-1-metre clamp is exactly `max x 1`. -/
theorem clampDist_eq_max (x : ℚ) : clampDist x = max x 1 := by
  unfold clampDist
  rcases lt_or_le x 1 with h | h
  · rw [if_pos h, max_eq_right (le_of_lt h)]
  · rw [if_neg (not_lt.mpr h), max_eq_left h]

/-- C1 counterexample: at S = -1 (with freq = 50 kHz, T = 10, z = 100,
ph = 8, an input on which every model is also outside its reliability
limits) the claim demands the mean of the invalid models' values plus a
warning, but `alpha_francois_and_garrison` evaluates `math.sqrt(-1 / 35)`,
whose ValueError nothing catches: absorption hard-fails instead of
returning a number. -/
theorem c1_counterexample : absorption opsId 50000 10 100 (-1) 8 = none := by
  have hfg : alpha_francois_and_garrison opsId 50000 10 100 (-1) 8 = none := by
    norm_num [alpha_francois_and_garrison]
  simp [absorption, absorptionParts, hfg]

/-- C1 (amended): speed_of_sound always returns the arithmetic mean of
exactly the valid models' values (mean of the invalid ones plus the
global-invalidity warning when none is valid).  absorption follows the same
policy on every input on which its banded evaluators' partial operations are
defined; when one of them raises (for example `math.sqrt(S / 35)` on any
S < 0), the exception propagates and no number is returned — the ensemble
result is the policy applied under `Option.bind`/`Option.map` over the two
fallible evaluators. -/
theorem c1_ensemble_mean_policy (ops : RealOps) (T z S freq ph : ℚ) :
    speed_of_sound T z S = ensembleSpec [c_mackenzie T z S, c_coppens T z S]
    ∧ absorption ops freq T z S ph =
        (alpha_francois_and_garrison ops freq T z S ph).bind (fun fg =>
          (alpha_ainslie_and_mccolm ops freq T z S ph).map (fun am =>
            ensembleSpec
              [((alpha_fisher_and_simmons ops freq T z).1,
                !decide (S = 35 ∧ ph = 8)), fg, am])) := by
  constructor
  · cases hm : (c_mackenzie T z S).2 <;> cases hc : (c_coppens T z S).2 <;>
      simp [speed_of_sound, sosParts, ensembleSpec, hm, hc]
  · cases hfg : alpha_francois_and_garrison ops freq T z S ph with
    | none => simp [absorption, absorptionParts, hfg]
    | some fg =>
      cases ham : alpha_ainslie_and_mccolm ops freq T z S ph with
      | none => simp [absorption, absorptionParts, hfg, ham]
      | some am =>
        rcases fg with ⟨fgv, fgw⟩
        rcases am with ⟨amv, amw⟩
        by_cases hfs : S = 35 ∧ ph = 8
        · have hd : decide (S = 35 ∧ ph = 8) = true := decide_eq_true hfs
          cases fgw <;> cases amw <;>
            simp [absorption, absorptionParts, ensembleSpec, if_pos hfs, hd,
              hfg, ham]
        · have hd : decide (S = 35 ∧ ph = 8) = false := decide_eq_false hfs
          cases fgw <;> cases amw <;>
            simp [absorption, absorptionParts, ensembleSpec, if_neg hfs, hd,
              hfg, ham]

/-- C5: in the absorption ensemble the Fisher and Simmons result is
classified valid exactly when `S = 35` and `ph = 8` hold as equalities (no
tolerance band); its value is computed for every input — it is produced
before either fallible banded evaluator runs — landing in the invalid list
on any deviation, and whenever the valid list is empty the returned value is
the mean of that invalid list (with the global warning). -/
theorem c5_fisher_simmons_validity (ops : RealOps) (freq T z S ph : ℚ) :
    absorptionParts ops freq T z S ph =
      (alpha_francois_and_garrison ops freq T z S ph).bind (fun fg =>
        (alpha_ainslie_and_mccolm ops freq T z S ph).map (fun am =>
          ((if S = 35 ∧ ph = 8 then [(alpha_fisher_and_simmons ops freq T z).1]
              else [])
              ++ (if fg.2 then [] else [fg.1])
              ++ (if am.2 then [] else [am.1]),
           (if S = 35 ∧ ph = 8 then []
              else [(alpha_fisher_and_simmons ops freq T z).1])
              ++ (if fg.2 then [fg.1] else [])
              ++ (if am.2 then [am.1] else []))))
    ∧ (∀ p, absorptionParts ops freq T z S ph = some p → p.1 = [] →
        absorption ops freq T z S ph = some (meanQ p.2, true)) := by
  constructor
  · cases hfg : alpha_francois_and_garrison ops freq T z S ph with
    | none => simp [absorptionParts, hfg]
    | some fg =>
      cases ham : alpha_ainslie_and_mccolm ops freq T z S ph with
      | none => simp [absorptionParts, hfg, ham]
      | some am =>
        by_cases hfs : S = 35 ∧ ph = 8
        · cases hfgw : fg.2 <;> cases hamw : am.2 <;>
            simp [absorptionParts, if_pos hfs, hfg, ham, hfgw, hamw]
        · cases hfgw : fg.2 <;> cases hamw : am.2 <;>
            simp [absorptionParts, if_neg hfs, hfg, ham, hfgw, hamw]
  · intro p hp h1
    simp [absorption, hp, h1]

/-- C7: the one-way dB component of transmission_loss is the elementwise sum
of the one-way dB components of absorption_loss and spreading_loss, and the
remaining components are derived from it: two-way dB doubles it and the
linear views are `10 ^ (dB / 10)`. -/
theorem c7_transmission_loss_sum (ops : RealOps) (d : DArg) (alpha : ℚ) :
    (transmission_loss ops d alpha).2.db_one_way
        = vzip (fun a b => a + b) (absorption_loss ops d alpha).db_one_way
            ((spreading_loss ops d).2.db_one_way)
    ∧ (transmission_loss ops d alpha).2.db_two_way
        = vmap (fun x => 2 * x) ((transmission_loss ops d alpha).2.db_one_way)
    ∧ (transmission_loss ops d alpha).2.lin_one_way
        = vmap (fun x => ops.pow10 (x / 10)) ((transmission_loss ops d alpha).2.db_one_way)
    ∧ (transmission_loss ops d alpha).2.lin_two_way
        = vmap (fun x => ops.pow10 (x / 10)) ((transmission_loss ops d alpha).2.db_two_way) := by
  refine ⟨rfl, ?_, rfl, rfl⟩
  cases d <;>
    simp [transmission_loss, absorption_loss, spreading_loss, toV, vmap, vzip,
      mul_comm]

/-- C8: every model evaluator clamps the depth to 0 before any formula or
validity check runs, so a negative depth gives exactly the same value and
the same validity classification as depth 0. -/
theorem c8_depth_clamp (ops : RealOps) (freq T S ph z : ℚ) (hz : z < 0) :
    c_mackenzie T z S = c_mackenzie T 0 S
    ∧ c_coppens T z S = c_coppens T 0 S
    ∧ alpha_fisher_and_simmons ops freq T z = alpha_fisher_and_simmons ops freq T 0
    ∧ alpha_francois_and_garrison ops freq T z S ph
        = alpha_francois_and_garrison ops freq T 0 S ph
    ∧ alpha_ainslie_and_mccolm ops freq T z S ph
        = alpha_ainslie_and_mccolm ops freq T 0 S ph := by
  have h1 : (if z < 0 then (0 : ℚ) else z) = 0 := if_pos hz
  refine ⟨?_, ?_, ?_, ?_, ?_⟩ <;>
    simp [c_mackenzie, c_coppens, alpha_fisher_and_simmons,
      alpha_francois_and_garrison, alpha_ainslie_and_mccolm, h1]

/-- Witness for C8 at the concrete depth -50 of the claim. -/
theorem c8_depth_clamp_witness :
    c_mackenzie 10 (-50) 35 = c_mackenzie 10 0 35
    ∧ c_coppens 10 (-50) 35 = c_coppens 10 0 35
    ∧ alpha_fisher_and_simmons opsId 1000 10 (-50) = alpha_fisher_and_simmons opsId 1000 10 0
    ∧ alpha_francois_and_garrison opsId 1000 10 (-50) 35 8
        = alpha_francois_and_garrison opsId 1000 10 0 35 8
    ∧ alpha_ainslie_and_mccolm opsId 1000 10 (-50) 35 8
        = alpha_ainslie_and_mccolm opsId 1000 10 0 35 8 :=
  c8_depth_clamp opsId 1000 10 35 8 (-50) (by norm_num)

/-- C9: spreading_loss at distance 0.5 returns the same four-tuple as at
distance 1, and in general the one-way dB component is
`20 * log10 (max d 1)` elementwise: sub-1-metre distances are treated as
1 metre. -/
theorem c9_spreading_clamp (ops : RealOps) :
    (spreading_loss ops (DArg.scl (1 / 2))).2 = (spreading_loss ops (DArg.scl 1)).2
    ∧ ∀ d : DArg, (spreading_loss ops d).2.db_one_way
        = vmap (fun x => 20 * ops.log10 (max x 1)) (toV d) := by
  constructor
  · norm_num [spreading_loss, clampDist]
  · intro d
    cases d <;>
      simp [spreading_loss, toV, vmap, clampDist_eq_max, List.map_map,
        Function.comp]

/-- C10: spreading_loss (and transmission_loss, which calls it) clamps a
numpy-array distance argument in place: after the call, the caller's array
holds `clampDist` of each entry (sub-1 entries replaced by 1), while a list or
scalar argument is left unchanged. -/
theorem c10_spreading_inplace (ops : RealOps) (alpha q : ℚ) (l : List ℚ) :
    (spreading_loss ops (DArg.arr l)).1 = DArg.arr (l.map clampDist)
    ∧ (transmission_loss ops (DArg.arr l) alpha).1 = DArg.arr (l.map clampDist)
    ∧ (spreading_loss ops (DArg.scl q)).1 = DArg.scl q
    ∧ (spreading_loss ops (DArg.lst l)).1 = DArg.lst l
    ∧ (transmission_loss ops (DArg.scl q) alpha).1 = DArg.scl q
    ∧ (transmission_loss ops (DArg.lst l) alpha).1 = DArg.lst l :=
  ⟨rfl, rfl, rfl, rfl, rfl, rfl⟩
